import Mathlib

/-!
Shallow embedding of `src/main.py`: a sparse game board holding tokens at
integer coordinates, behind a command-dispatch `App`.

The Python `Board.positions` dict is modelled as an association list with
Python-dict semantics: assignment updates the first entry with the given key
in place (or appends), `del` removes the entry with the key, lookup returns
the first entry with the key.  A Python dict never holds duplicate keys;
theorems that need this carry a `keysNodup` hypothesis, and we prove that
every board operation preserves it.

Python exceptions (`KeyError`, `AttributeError`) are modelled with `Except`;
the `App` state is threaded explicitly, and an error result carries the state
at the point of the raise (no mutation precedes any raise in the source).
-/

namespace Main

/-- `class Token`: a single attribute `value`. -/
structure Token where
  value : String
deriving DecidableEq

/-- `class Position` (defined in the source but unused by `Board`). -/
structure Position where
  x : Int
  y : Int
  token : Token
deriving DecidableEq

abbrev Coord := Int × Int

abbrev PosMap := List (Coord × Token)

/-- Python dict assignment `d[k] = t`: replace the value of the entry with
key `k` in place, or append a fresh entry when the key is absent. -/
def dictSet : PosMap → Coord → Token → PosMap
  | [], k, t => [(k, t)]
  | (k0, t0) :: rest, k, t =>
      if k0 = k then (k0, t) :: rest else (k0, t0) :: dictSet rest k t

/-- Python dict lookup `d[k]`, as an `Option` (`none` when `d[k]` would
raise `KeyError`). -/
def dictGet : PosMap → Coord → Option Token
  | [], _ => none
  | (k0, t0) :: rest, k => if k0 = k then some t0 else dictGet rest k

/-- Python `k in d`: some entry has key `k`. -/
def dictMem : PosMap → Coord → Bool
  | [], _ => false
  | (k0, _) :: rest, k => k0 = k || dictMem rest k

/-- Python `del d[k]`: remove the entry with key `k`. -/
def dictDel : PosMap → Coord → PosMap
  | [], _ => []
  | (k0, t0) :: rest, k => if k0 = k then rest else (k0, t0) :: dictDel rest k

/-- The keys of the mapping are pairwise distinct, as in a Python dict. -/
def keysNodup (d : PosMap) : Prop := (d.map Prod.fst).Nodup

instance (d : PosMap) : Decidable (keysNodup d) :=
  List.nodupDecidable _

/-- Number of entries stored at key `k`. -/
def countKey (d : PosMap) (k : Coord) : Nat :=
  (d.filter (fun e => e.1 = k)).length

/-- `class Board`: declared extent plus the sparse mapping. -/
structure Board where
  width : Int
  height : Int
  positions : PosMap
deriving DecidableEq

/-- `Board.__init__(self, width, height)`: `self.positions = {}`. -/
def mkBoard (width height : Int) : Board :=
  { width := width, height := height, positions := [] }

/-- The loop of `Board.get_token`: iterate over the keys of `positions`; on
the first key whose components match, return `self.positions[(x, y)].value`
(the lookup cannot miss there, since the matching key equals `(x, y)`). -/
def getTokenGo (full : PosMap) (x y : Int) : PosMap → Option String
  | [] => none
  | (p, _) :: rest =>
      if x = p.1 ∧ y = p.2 then (dictGet full (x, y)).map Token.value
      else getTokenGo full x y rest

/-- `Board.get_token(self, x, y)`. -/
def Board.get_token (b : Board) (x y : Int) : Option String :=
  getTokenGo b.positions x y b.positions

/-- The loop of `Board.remove_token`: on the first key whose components
match, `del self.positions[(x, y)]` and `break`; otherwise leave the mapping
unchanged. -/
def removeTokenGo (full : PosMap) (x y : Int) : PosMap → PosMap
  | [] => full
  | (p, _) :: rest =>
      if x = p.1 ∧ y = p.2 then dictDel full (x, y)
      else removeTokenGo full x y rest

/-- `Board.remove_token(self, x, y)`. -/
def Board.remove_token (b : Board) (x y : Int) : Board :=
  { b with positions := removeTokenGo b.positions x y b.positions }

/-- `Board.place_token(self, x, y, symbol)`: `self.positions[(x, y)] =
Token(symbol)`. -/
def Board.place_token (b : Board) (x y : Int) (symbol : String) : Board :=
  { b with positions := dictSet b.positions (x, y) (Token.mk symbol) }

/-- One cell of `Board.__str__`: the token's value plus a space when
`(column, row)` is in `positions`, else `". "`.  (The inner `none` branch is
unreachable: membership guarantees the lookup succeeds.) -/
def cellText (d : PosMap) (column row : Nat) : String :=
  if dictMem d ((column : Int), (row : Int)) then
    (match dictGet d ((column : Int), (row : Int)) with
     | some t => t.value
     | none => "") ++ " "
  else ". "

/-- One row of `Board.__str__`: the cells for `column in range(width)`,
then `"\n\n"`. -/
def rowText (d : PosMap) (width row : Nat) : String :=
  String.join ((List.range width).map (fun column => cellText d column row)) ++ "\n\n"

/-- `Board.__str__`: rows for `row in range(height)`.  `range` of a
non-positive int is empty, hence `Int.toNat`. -/
def Board.render (b : Board) : String :=
  String.join ((List.range b.height.toNat).map
    (fun row => rowText b.positions b.width.toNat row))

/-- Python exceptions the dispatcher can raise. -/
inductive PyErr where
  | keyError (key : String)
  | attributeError (attr : String)
deriving DecidableEq

/-- Python return values of the `App` methods: `None`, a `Board`, or a
token-symbol string. -/
inductive Result where
  | noneVal
  | boardVal (b : Board)
  | strVal (s : String)
deriving DecidableEq

/-- `class Action`: a command name plus a payload dict.  The payload fields
model the only keys the dispatcher ever reads (`x`, `y`, `symbol`); a `none`
field is an absent key, so reading it raises `KeyError`. -/
structure Payload where
  x : Option Int
  y : Option Int
  symbol : Option String
deriving DecidableEq

structure Action where
  name : String
  payload : Payload
deriving DecidableEq

/-- `class App`: `board` is the `self.board` attribute, unset (`none`) until
`create_board` first runs — reading it then raises `AttributeError`. -/
structure App where
  board : Option Board
deriving DecidableEq

/-- `App.__init__` installs the routing table only; `self.board` is unset. -/
def App.init : App := { board := none }

/-- `App.create_board(self, options)`: `self.board = Board(options['x'],
options['y'])` (arguments evaluated left to right), `return self.board`. -/
def App.create_board (a : App) (options : Payload) : Except PyErr Result × App :=
  match options.x with
  | none => (Except.error (PyErr.keyError "x"), a)
  | some x =>
    match options.y with
    | none => (Except.error (PyErr.keyError "y"), a)
    | some y =>
      (Except.ok (Result.boardVal (mkBoard x y)), { a with board := some (mkBoard x y) })

/-- `App.place_token(self, options)`: `self.board` is read first (raising
`AttributeError` when unset), then `options['x']`, `options['y']`,
`options['symbol']` left to right; `Board.place_token` returns `None`. -/
def App.place_token (a : App) (options : Payload) : Except PyErr Result × App :=
  match a.board with
  | none => (Except.error (PyErr.attributeError "board"), a)
  | some b =>
    match options.x with
    | none => (Except.error (PyErr.keyError "x"), a)
    | some x =>
      match options.y with
      | none => (Except.error (PyErr.keyError "y"), a)
      | some y =>
        match options.symbol with
        | none => (Except.error (PyErr.keyError "symbol"), a)
        | some s =>
          (Except.ok Result.noneVal, { a with board := some (b.place_token x y s) })

/-- `App.get_token(self, options)`: forwards to `Board.get_token`; the
result is the symbol string, or `None` when the cell is empty. -/
def App.get_token (a : App) (options : Payload) : Except PyErr Result × App :=
  match a.board with
  | none => (Except.error (PyErr.attributeError "board"), a)
  | some b =>
    match options.x with
    | none => (Except.error (PyErr.keyError "x"), a)
    | some x =>
      match options.y with
      | none => (Except.error (PyErr.keyError "y"), a)
      | some y =>
        (Except.ok (match b.get_token x y with
                    | some s => Result.strVal s
                    | none => Result.noneVal), a)

/-- `App.remove_token(self, options)`: forwards to `Board.remove_token`,
which returns `None`. -/
def App.remove_token (a : App) (options : Payload) : Except PyErr Result × App :=
  match a.board with
  | none => (Except.error (PyErr.attributeError "board"), a)
  | some b =>
    match options.x with
    | none => (Except.error (PyErr.keyError "x"), a)
    | some x =>
      match options.y with
      | none => (Except.error (PyErr.keyError "y"), a)
      | some y =>
        (Except.ok Result.noneVal, { a with board := some (b.remove_token x y) })

/-- `App.execute(self, action)`: `return` (i.e. `None`) when `action.name`
is not a key of the routing table `self.commands`, else dispatch to the
bound method.  The table is fixed at construction with exactly the four
command names. -/
def App.execute (a : App) (action : Action) : Except PyErr Result × App :=
  if action.name = "create_board" then a.create_board action.payload
  else if action.name = "place_token" then a.place_token action.payload
  else if action.name = "get_token" then a.get_token action.payload
  else if action.name = "remove_token" then a.remove_token action.payload
  else (Except.ok Result.noneVal, a)

/-! ### Concrete states used to instantiate the theorems -/

/-- A dispatcher that already holds an (empty) 8 by 8 board. -/
def appB : App := { board := some (mkBoard 8 8) }

/-- The payload used by the source's own test commands. -/
def fullPayload : Payload := { x := some 3, y := some 3, symbol := some "X" }

/-- A payload with every key absent. -/
def emptyPayload : Payload := { x := none, y := none, symbol := none }

/-- A `create_board` payload for a 2 by 5 board. -/
def cbPayload : Payload := { x := some 2, y := some 5, symbol := none }

/-! ### Dictionary lemmas -/

theorem dictGet_dictSet_self (d : PosMap) (k : Coord) (t : Token) :
    dictGet (dictSet d k t) k = some t := by
  induction d with
  | nil => simp [dictSet, dictGet]
  | cons e rest ih =>
    obtain ⟨k0, t0⟩ := e
    by_cases h : k0 = k
    · simp [dictSet, dictGet, h]
    · simp [dictSet, dictGet, h, ih]

theorem dictGet_dictSet_ne (d : PosMap) (k k2 : Coord) (t : Token) (h : k2 ≠ k) :
    dictGet (dictSet d k t) k2 = dictGet d k2 := by
  have hk : k ≠ k2 := fun hh => h hh.symm
  induction d with
  | nil => simp [dictSet, dictGet, hk]
  | cons e rest ih =>
    obtain ⟨k0, t0⟩ := e
    by_cases h0 : k0 = k
    · subst h0
      simp [dictSet, dictGet, hk]
    · by_cases h2 : k0 = k2
      · subst h2
        simp [dictSet, dictGet, h]
      · simp [dictSet, dictGet, h0, h2, ih]

theorem dictGet_eq_none (d : PosMap) (k : Coord) (h : dictMem d k = false) :
    dictGet d k = none := by
  induction d with
  | nil => rfl
  | cons e rest ih =>
    obtain ⟨k0, t0⟩ := e
    simp [dictMem] at h
    simp [dictGet, h.1, ih h.2]

theorem dictMem_of_dictGet (d : PosMap) (k : Coord) (t : Token)
    (h : dictGet d k = some t) : dictMem d k = true := by
  induction d with
  | nil => simp [dictGet] at h
  | cons e rest ih =>
    obtain ⟨k0, t0⟩ := e
    by_cases h0 : k0 = k
    · simp [dictMem, h0]
    · simp [dictGet, h0] at h
      simp [dictMem, h0, ih h]

theorem dictMem_iff_mem_keys (d : PosMap) (k : Coord) :
    dictMem d k = true ↔ k ∈ d.map Prod.fst := by
  induction d with
  | nil => simp [dictMem]
  | cons e rest ih =>
    obtain ⟨k0, t0⟩ := e
    simp only [dictMem, List.map_cons, List.mem_cons, Bool.or_eq_true,
      decide_eq_true_eq, ih]
    constructor
    · rintro (hh | hh)
      · exact Or.inl hh.symm
      · exact Or.inr hh
    · rintro (hh | hh)
      · exact Or.inl hh.symm
      · exact Or.inr hh

theorem dictGet_of_mem (d : PosMap) (k : Coord) (t : Token)
    (h : keysNodup d) (hm : (k, t) ∈ d) : dictGet d k = some t := by
  induction d with
  | nil => simp at hm
  | cons e rest ih =>
    obtain ⟨k0, t0⟩ := e
    rw [keysNodup, List.map_cons, List.nodup_cons] at h
    rcases List.mem_cons.mp hm with hh | hh
    · injection hh with e1 e2
      subst e1
      subst e2
      simp [dictGet]
    · by_cases h0 : k0 = k
      · exfalso
        apply h.1
        rw [h0]
        exact List.mem_map.mpr ⟨(k, t), hh, rfl⟩
      · simp [dictGet, h0, ih h.2 hh]

theorem dictGet_dictDel_ne (d : PosMap) (k k2 : Coord) (h : k2 ≠ k) :
    dictGet (dictDel d k) k2 = dictGet d k2 := by
  have hk : k ≠ k2 := fun hh => h hh.symm
  induction d with
  | nil => rfl
  | cons e rest ih =>
    obtain ⟨k0, t0⟩ := e
    by_cases h0 : k0 = k
    · subst h0
      simp [dictDel, dictGet, hk]
    · by_cases h2 : k0 = k2
      · subst h2
        simp [dictDel, dictGet, h]
      · simp [dictDel, dictGet, h0, h2, ih]

theorem dictMem_dictDel_self (d : PosMap) (k : Coord) (h : keysNodup d) :
    dictMem (dictDel d k) k = false := by
  induction d with
  | nil => rfl
  | cons e rest ih =>
    obtain ⟨k0, t0⟩ := e
    rw [keysNodup, List.map_cons, List.nodup_cons] at h
    by_cases h0 : k0 = k
    · rw [dictDel]
      simp only [h0, if_pos rfl]
      rw [Bool.eq_false_iff]
      intro hmem
      apply h.1
      rw [h0]
      exact (dictMem_iff_mem_keys rest k).mp hmem
    · simp [dictDel, dictMem, h0, ih h.2]

theorem keys_dictDel_subset (d : PosMap) (k k2 : Coord)
    (h : k2 ∈ (dictDel d k).map Prod.fst) : k2 ∈ d.map Prod.fst := by
  induction d with
  | nil => simp [dictDel] at h
  | cons e rest ih =>
    obtain ⟨k0, t0⟩ := e
    by_cases h0 : k0 = k
    · simp only [dictDel, if_pos h0] at h
      simp [h]
    · simp only [dictDel, if_neg h0, List.map_cons, List.mem_cons] at h ⊢
      rcases h with h | h
      · exact Or.inl h
      · exact Or.inr (ih h)

theorem keysNodup_dictDel (d : PosMap) (k : Coord) (h : keysNodup d) :
    keysNodup (dictDel d k) := by
  induction d with
  | nil => exact h
  | cons e rest ih =>
    obtain ⟨k0, t0⟩ := e
    rw [keysNodup, List.map_cons, List.nodup_cons] at h
    by_cases h0 : k0 = k
    · simpa [dictDel, h0, keysNodup] using h.2
    · rw [keysNodup]
      simp only [dictDel, if_neg h0, List.map_cons, List.nodup_cons]
      exact ⟨fun hm => h.1 (keys_dictDel_subset rest k k0 hm), ih h.2⟩

theorem keys_dictSet_iff (d : PosMap) (k : Coord) (t : Token) (k2 : Coord) :
    k2 ∈ (dictSet d k t).map Prod.fst ↔ k2 = k ∨ k2 ∈ d.map Prod.fst := by
  induction d with
  | nil => simp [dictSet]
  | cons e rest ih =>
    obtain ⟨k0, t0⟩ := e
    by_cases h0 : k0 = k
    · subst h0
      simp [dictSet, List.mem_cons]
    · simp [dictSet, h0, List.mem_cons, ih]
      tauto

theorem keysNodup_dictSet (d : PosMap) (k : Coord) (t : Token) (h : keysNodup d) :
    keysNodup (dictSet d k t) := by
  induction d with
  | nil => simp [dictSet, keysNodup]
  | cons e rest ih =>
    obtain ⟨k0, t0⟩ := e
    rw [keysNodup, List.map_cons, List.nodup_cons] at h
    by_cases h0 : k0 = k
    · rw [keysNodup]
      simp only [dictSet, if_pos h0, List.map_cons, List.nodup_cons]
      exact h
    · rw [keysNodup]
      simp only [dictSet, if_neg h0, List.map_cons, List.nodup_cons]
      refine ⟨fun hm => ?_, ih h.2⟩
      rcases (keys_dictSet_iff rest k t k0).mp hm with hh | hh
      · exact h0 hh
      · exact h.1 hh

theorem countKey_eq_zero (d : PosMap) (k : Coord) (h : dictMem d k = false) :
    countKey d k = 0 := by
  induction d with
  | nil => rfl
  | cons e rest ih =>
    obtain ⟨k0, t0⟩ := e
    simp [dictMem] at h
    have hz := ih h.2
    unfold countKey at hz ⊢
    simp [List.filter_cons, h.1, hz]

theorem countKey_dictSet (d : PosMap) (k : Coord) (t : Token) (h : keysNodup d) :
    countKey (dictSet d k t) k = 1 := by
  induction d with
  | nil => simp [dictSet, countKey]
  | cons e rest ih =>
    obtain ⟨k0, t0⟩ := e
    rw [keysNodup, List.map_cons, List.nodup_cons] at h
    by_cases h0 : k0 = k
    · subst h0
      have hmem : dictMem rest k0 = false := by
        rw [Bool.eq_false_iff]
        intro hm
        exact h.1 ((dictMem_iff_mem_keys rest k0).mp hm)
      have hz := countKey_eq_zero rest k0 hmem
      unfold countKey at hz ⊢
      simp [dictSet, List.filter_cons, hz]
    · have hz := ih h.2
      unfold countKey at hz ⊢
      simp [dictSet, h0, List.filter_cons, hz]

theorem dictDel_filter_ne (d : PosMap) (k : Coord) :
    (dictDel d k).filter (fun e => e.1 ≠ k) = d.filter (fun e => e.1 ≠ k) := by
  induction d with
  | nil => rfl
  | cons e rest ih =>
    obtain ⟨k0, t0⟩ := e
    by_cases h0 : k0 = k
    · subst h0
      rw [dictDel, if_pos rfl, List.filter_cons]
      simp
    · rw [dictDel, if_neg h0, List.filter_cons, List.filter_cons, ih]

/-! ### Board-level lemmas -/

theorem getTokenGo_eq (full : PosMap) (x y : Int) (scan : PosMap) :
    getTokenGo full x y scan =
      if dictMem scan (x, y) then (dictGet full (x, y)).map Token.value else none := by
  induction scan with
  | nil => simp [getTokenGo, dictMem]
  | cons e rest ih =>
    obtain ⟨p, t⟩ := e
    by_cases hp : x = p.1 ∧ y = p.2
    · have hpk : p = (x, y) := Prod.ext_iff.mpr ⟨hp.1.symm, hp.2.symm⟩
      simp only [getTokenGo, dictMem]
      rw [if_pos hp]
      simp [hpk]
    · have hpk : p ≠ (x, y) := by
        intro hh
        exact hp ⟨by rw [hh], by rw [hh]⟩
      simp only [getTokenGo, dictMem]
      rw [if_neg hp, ih]
      simp [hpk]

theorem removeTokenGo_eq (full : PosMap) (x y : Int) (scan : PosMap) :
    removeTokenGo full x y scan =
      if dictMem scan (x, y) then dictDel full (x, y) else full := by
  induction scan with
  | nil => simp [removeTokenGo, dictMem]
  | cons e rest ih =>
    obtain ⟨p, t⟩ := e
    by_cases hp : x = p.1 ∧ y = p.2
    · have hpk : p = (x, y) := Prod.ext_iff.mpr ⟨hp.1.symm, hp.2.symm⟩
      simp only [removeTokenGo, dictMem]
      rw [if_pos hp]
      simp [hpk]
    · have hpk : p ≠ (x, y) := by
        intro hh
        exact hp ⟨by rw [hh], by rw [hh]⟩
      simp only [removeTokenGo, dictMem]
      rw [if_neg hp, ih]
      simp [hpk]

/-- `Board.get_token` is Python dict lookup of `(x, y)`, projected to the
token's symbol. -/
theorem Board.get_token_eq (b : Board) (x y : Int) :
    b.get_token x y = (dictGet b.positions (x, y)).map Token.value := by
  rw [Board.get_token, getTokenGo_eq]
  cases hm : dictMem b.positions (x, y)
  · simp [dictGet_eq_none b.positions (x, y) hm]
  · simp

/-- `Board.remove_token` deletes the `(x, y)` entry when present and leaves
the mapping unchanged otherwise. -/
theorem Board.remove_token_positions (b : Board) (x y : Int) :
    (b.remove_token x y).positions =
      if dictMem b.positions (x, y) then dictDel b.positions (x, y) else b.positions := by
  rw [Board.remove_token, removeTokenGo_eq]

theorem Board.remove_token_width (b : Board) (x y : Int) :
    (b.remove_token x y).width = b.width := rfl

theorem Board.remove_token_height (b : Board) (x y : Int) :
    (b.remove_token x y).height = b.height := rfl

theorem Board.place_token_positions (b : Board) (x y : Int) (s : String) :
    (b.place_token x y s).positions = dictSet b.positions (x, y) (Token.mk s) := rfl

/-- Placing preserves the dict invariant (no duplicate keys). -/
theorem keysNodup_place (b : Board) (x y : Int) (s : String)
    (h : keysNodup b.positions) : keysNodup (b.place_token x y s).positions :=
  keysNodup_dictSet b.positions (x, y) (Token.mk s) h

/-- Removing preserves the dict invariant (no duplicate keys). -/
theorem keysNodup_remove (b : Board) (x y : Int)
    (h : keysNodup b.positions) : keysNodup (b.remove_token x y).positions := by
  rw [Board.remove_token_positions]
  cases hm : dictMem b.positions (x, y)
  · simpa using h
  · simpa using keysNodup_dictDel b.positions (x, y) h

/-- A get right after a place at the same cell returns the placed symbol. -/
theorem get_place_self (b : Board) (x y : Int) (s : String) :
    (b.place_token x y s).get_token x y = some s := by
  rw [Board.get_token_eq, Board.place_token_positions, dictGet_dictSet_self]
  rfl

/-- A get right after a remove at the same cell returns `None`. -/
theorem get_remove_self (b : Board) (x y : Int) (h : keysNodup b.positions) :
    (b.remove_token x y).get_token x y = none := by
  rw [Board.get_token_eq, Board.remove_token_positions]
  cases hm : dictMem b.positions (x, y)
  · simp [dictGet_eq_none b.positions (x, y) hm]
  · have hd : dictMem (dictDel b.positions (x, y)) (x, y) = false :=
      dictMem_dictDel_self b.positions (x, y) h
    simp [dictGet_eq_none _ _ hd]

/-- After a remove, the cell is no longer a key of the mapping. -/
theorem not_mem_after_remove (b : Board) (x y : Int) (h : keysNodup b.positions) :
    dictMem (b.remove_token x y).positions (x, y) = false := by
  rw [Board.remove_token_positions]
  cases hm : dictMem b.positions (x, y)
  · simpa using hm
  · simpa using dictMem_dictDel_self b.positions (x, y) h

/-- Removing at an absent key leaves the whole board unchanged. -/
theorem Board.remove_token_of_not_mem (b : Board) (x y : Int)
    (h : dictMem b.positions (x, y) = false) : b.remove_token x y = b := by
  obtain ⟨w, ht, pos⟩ := b
  have h2 : dictMem pos (x, y) = false := h
  show Board.mk w ht (removeTokenGo pos x y pos) = Board.mk w ht pos
  rw [removeTokenGo_eq, h2]
  simp

/-! ### Claims -/

/-- C1: placing a token at `(x, y)` twice in succession with symbols `s1`
then `s2` leaves exactly one entry at `(x, y)`, and a subsequent get at
`(x, y)` returns the second symbol (last-write-wins, no error on the second
place, which is total). -/
theorem overwrite_last_write_wins (b : Board) (x y : Int) (s1 s2 : String)
    (h : keysNodup b.positions) :
    countKey ((b.place_token x y s1).place_token x y s2).positions (x, y) = 1 ∧
    ((b.place_token x y s1).place_token x y s2).get_token x y = some s2 := by
  constructor
  · have h1 := keysNodup_place b x y s1 h
    exact countKey_dictSet _ (x, y) (Token.mk s2) h1
  · exact get_place_self _ x y s2

theorem overwrite_last_write_wins_witness :
    keysNodup (mkBoard 8 8).positions ∧
    (countKey (((mkBoard 8 8).place_token 3 3 "X").place_token 3 3 "O").positions (3, 3) = 1 ∧
     (((mkBoard 8 8).place_token 3 3 "X").place_token 3 3 "O").get_token 3 3 = some "O") :=
  ⟨by decide, overwrite_last_write_wins (mkBoard 8 8) 3 3 "X" "O" (by decide)⟩

/-- C2: a get at a coordinate with no entry returns `None` rather than
raising; a get right after a remove at that coordinate returns `None`; and
when a token occupies `(x, y)` the get returns that token's symbol. -/
theorem get_absence_correct (b : Board) (x y : Int) (t : Token)
    (h : keysNodup b.positions) :
    (dictMem b.positions (x, y) = false → b.get_token x y = none) ∧
    (b.remove_token x y).get_token x y = none ∧
    (((x, y), t) ∈ b.positions → b.get_token x y = some t.value) := by
  refine ⟨fun hm => ?_, get_remove_self b x y h, fun hm => ?_⟩
  · rw [Board.get_token_eq, dictGet_eq_none _ _ hm]
    rfl
  · rw [Board.get_token_eq, dictGet_of_mem _ _ _ h hm]
    rfl

theorem get_absence_correct_witness :
    keysNodup ((mkBoard 8 8).place_token 3 3 "X").positions ∧
    ((dictMem ((mkBoard 8 8).place_token 3 3 "X").positions (3, 3) = false →
        ((mkBoard 8 8).place_token 3 3 "X").get_token 3 3 = none) ∧
     (((mkBoard 8 8).place_token 3 3 "X").remove_token 3 3).get_token 3 3 = none ∧
     (((3, 3), Token.mk "X") ∈ ((mkBoard 8 8).place_token 3 3 "X").positions →
        ((mkBoard 8 8).place_token 3 3 "X").get_token 3 3 = some (Token.mk "X").value)) :=
  ⟨by decide, get_absence_correct ((mkBoard 8 8).place_token 3 3 "X") 3 3 (Token.mk "X") (by decide)⟩

/-- C3: removing at `(x, y)` twice yields the same board as removing once;
after either, the mapping has no entry at `(x, y)` and every entry at any
other key is unchanged; the second (absent-target) remove is a total
function, hence a silent no-op. -/
theorem remove_idempotent (b : Board) (x y : Int) (h : keysNodup b.positions) :
    (b.remove_token x y).remove_token x y = b.remove_token x y ∧
    dictMem (b.remove_token x y).positions (x, y) = false ∧
    (b.remove_token x y).positions.filter (fun e => e.1 ≠ (x, y)) =
      b.positions.filter (fun e => e.1 ≠ (x, y)) := by
  have hnm := not_mem_after_remove b x y h
  refine ⟨Board.remove_token_of_not_mem _ x y hnm, hnm, ?_⟩
  rcases Bool.eq_false_or_eq_true (dictMem b.positions (x, y)) with hm | hm
  · rw [Board.remove_token_positions, hm]
    exact dictDel_filter_ne b.positions (x, y)
  · rw [Board.remove_token_positions, hm]
    rfl

theorem remove_idempotent_witness :
    keysNodup ((mkBoard 8 8).place_token 3 3 "X").positions ∧
    ((((mkBoard 8 8).place_token 3 3 "X").remove_token 3 3).remove_token 3 3 =
        ((mkBoard 8 8).place_token 3 3 "X").remove_token 3 3 ∧
     dictMem (((mkBoard 8 8).place_token 3 3 "X").remove_token 3 3).positions (3, 3) = false ∧
     (((mkBoard 8 8).place_token 3 3 "X").remove_token 3 3).positions.filter
         (fun e => e.1 ≠ (3, 3)) =
       ((mkBoard 8 8).place_token 3 3 "X").positions.filter (fun e => e.1 ≠ (3, 3))) :=
  ⟨by decide, remove_idempotent ((mkBoard 8 8).place_token 3 3 "X") 3 3 (by decide)⟩

/-- C4 counterexample: the unknown-command result is NOT distinct from every
valid operation result — dispatching an unknown name returns `None`
(`Result.noneVal`), exactly the value a successful `place_token` dispatch
returns. -/
theorem unknown_result_not_distinct :
    (App.execute appB { name := "shuffle", payload := fullPayload }).1 =
      (App.execute appB { name := "place_token", payload := fullPayload }).1 ∧
    (App.execute appB { name := "shuffle", payload := fullPayload }).1 =
      Except.ok Result.noneVal :=
  ⟨rfl, rfl⟩

/-- C4 (amended): for every dispatcher state and every action whose name is
not one of the four routed commands, `execute` performs no side effect,
never raises, and returns `None` — a result that coincides with (is not
distinct from) the result of a valid `place_token`/`remove_token` dispatch. -/
theorem execute_unknown_noop (a : App) (action : Action)
    (h1 : action.name ≠ "create_board") (h2 : action.name ≠ "place_token")
    (h3 : action.name ≠ "get_token") (h4 : action.name ≠ "remove_token") :
    App.execute a action = (Except.ok Result.noneVal, a) := by
  unfold App.execute
  rw [if_neg h1, if_neg h2, if_neg h3, if_neg h4]

theorem execute_unknown_noop_witness :
    ("shuffle" ≠ "create_board" ∧ "shuffle" ≠ "place_token" ∧
     "shuffle" ≠ "get_token" ∧ "shuffle" ≠ "remove_token") ∧
    App.execute appB { name := "shuffle", payload := fullPayload } =
      (Except.ok Result.noneVal, appB) :=
  ⟨⟨by decide, by decide, by decide, by decide⟩,
   execute_unknown_noop appB { name := "shuffle", payload := fullPayload }
     (by decide) (by decide) (by decide) (by decide)⟩

/-- C5: on a dispatcher on which `create_board` has never run (`self.board`
unset), executing any board-scoped command raises `AttributeError`, which
propagates out of `execute` with the state unchanged. -/
theorem execute_no_board_raises (a : App) (p : Payload) (h : a.board = none) :
    App.execute a { name := "place_token", payload := p } =
      (Except.error (PyErr.attributeError "board"), a) ∧
    App.execute a { name := "get_token", payload := p } =
      (Except.error (PyErr.attributeError "board"), a) ∧
    App.execute a { name := "remove_token", payload := p } =
      (Except.error (PyErr.attributeError "board"), a) := by
  obtain ⟨ob⟩ := a
  obtain rfl : ob = none := h
  exact ⟨rfl, rfl, rfl⟩

theorem execute_no_board_raises_witness :
    App.init.board = none ∧
    App.execute App.init { name := "place_token", payload := emptyPayload } =
      (Except.error (PyErr.attributeError "board"), App.init) :=
  ⟨rfl, (execute_no_board_raises App.init emptyPayload rfl).1⟩

/-- C6: in any dispatcher state, `create_board` with payload keys `x` and
`y` builds a fresh grid of width `x` and height `y` with an empty mapping,
stores it as the current grid (fully replacing any prior one), and returns
it. -/
theorem execute_create_board_replaces (a : App) (p : Payload) (x y : Int)
    (hx : p.x = some x) (hy : p.y = some y) :
    App.execute a { name := "create_board", payload := p } =
      (Except.ok (Result.boardVal (mkBoard x y)), { board := some (mkBoard x y) }) ∧
    (mkBoard x y).width = x ∧ (mkBoard x y).height = y ∧ (mkBoard x y).positions = [] := by
  obtain ⟨px, py, ps⟩ := p
  obtain rfl : px = some x := hx
  obtain rfl : py = some y := hy
  exact ⟨rfl, rfl, rfl, rfl⟩

theorem execute_create_board_replaces_witness :
    cbPayload.x = some 2 ∧ cbPayload.y = some 5 ∧
    App.execute appB { name := "create_board", payload := cbPayload } =
      (Except.ok (Result.boardVal (mkBoard 2 5)), { board := some (mkBoard 2 5) }) :=
  ⟨rfl, rfl, (execute_create_board_replaces appB cbPayload 2 5 rfl rfl).1⟩

/-- C7: at a coordinate outside the declared extent (`x ≥ width` or
`y ≥ height`), place succeeds and the token is retrievable, a remove after
the place succeeds and deletes it, and get returns the stored symbol or the
absence marker — all three operations are total, so none raises. -/
theorem out_of_range_tolerated (b : Board) (x y : Int) (s : String)
    (_hrange : b.width ≤ x ∨ b.height ≤ y) (h : keysNodup b.positions) :
    (b.place_token x y s).get_token x y = some s ∧
    ((b.place_token x y s).remove_token x y).get_token x y = none ∧
    b.get_token x y = (dictGet b.positions (x, y)).map Token.value := by
  refine ⟨get_place_self b x y s, ?_, Board.get_token_eq b x y⟩
  exact get_remove_self _ x y (keysNodup_place b x y s h)

theorem out_of_range_tolerated_witness :
    ((mkBoard 2 2).width ≤ 5 ∨ (mkBoard 2 2).height ≤ 0) ∧
    keysNodup (mkBoard 2 2).positions ∧
    (((mkBoard 2 2).place_token 5 0 "Z").get_token 5 0 = some "Z" ∧
     (((mkBoard 2 2).place_token 5 0 "Z").remove_token 5 0).get_token 5 0 = none ∧
     (mkBoard 2 2).get_token 5 0 = (dictGet (mkBoard 2 2).positions (5, 0)).map Token.value) :=
  ⟨by decide, by decide, out_of_range_tolerated (mkBoard 2 2) 5 0 "Z" (by decide) (by decide)⟩

/-- C8: rendering an empty 2 by 2 board yields exactly two rows, each the
text `". . "` (placeholder dot plus separator space per cell, columns
iterated 0..width-1, rows 0..height-1), each row terminated by a double
newline; rendering is a total function, so it never fails. -/
theorem render_empty_two_by_two :
    Board.render (mkBoard 2 2) = ". . \n\n. . \n\n" ∧
    rowText (mkBoard 2 2).positions 2 0 = ". . " ++ "\n\n" ∧
    rowText (mkBoard 2 2).positions 2 1 = ". . " ++ "\n\n" :=
  ⟨rfl, rfl, rfl⟩

/-- C9: a recognized command whose payload lacks a required key fails with
`KeyError` naming the missing key (payload keys are read left to right:
`x`, then `y`, then — for `place_token` — `symbol`), the error propagates
out of `execute`, and the dispatcher state (current grid) is unchanged. -/
theorem missing_key_propagates (a : App) (b : Board) (p : Payload)
    (hb : a.board = some b) :
    (p.x = none →
      App.execute a { name := "create_board", payload := p } =
        (Except.error (PyErr.keyError "x"), a)) ∧
    (∀ x0, p.x = some x0 → p.y = none →
      App.execute a { name := "create_board", payload := p } =
        (Except.error (PyErr.keyError "y"), a)) ∧
    (p.x = none →
      App.execute a { name := "place_token", payload := p } =
        (Except.error (PyErr.keyError "x"), a)) ∧
    (∀ x0, p.x = some x0 → p.y = none →
      App.execute a { name := "place_token", payload := p } =
        (Except.error (PyErr.keyError "y"), a)) ∧
    (∀ x0 y0, p.x = some x0 → p.y = some y0 → p.symbol = none →
      App.execute a { name := "place_token", payload := p } =
        (Except.error (PyErr.keyError "symbol"), a)) ∧
    (p.x = none →
      App.execute a { name := "get_token", payload := p } =
        (Except.error (PyErr.keyError "x"), a)) ∧
    (∀ x0, p.x = some x0 → p.y = none →
      App.execute a { name := "get_token", payload := p } =
        (Except.error (PyErr.keyError "y"), a)) ∧
    (p.x = none →
      App.execute a { name := "remove_token", payload := p } =
        (Except.error (PyErr.keyError "x"), a)) ∧
    (∀ x0, p.x = some x0 → p.y = none →
      App.execute a { name := "remove_token", payload := p } =
        (Except.error (PyErr.keyError "y"), a)) := by
  obtain ⟨ob⟩ := a
  obtain rfl : ob = some b := hb
  obtain ⟨px, py, ps⟩ := p
  refine ⟨?_, ?_, ?_, ?_, ?_, ?_, ?_, ?_, ?_⟩
  · intro hx
    obtain rfl : px = none := hx
    rfl
  · intro x0 hx hy
    obtain rfl : px = some x0 := hx
    obtain rfl : py = none := hy
    rfl
  · intro hx
    obtain rfl : px = none := hx
    rfl
  · intro x0 hx hy
    obtain rfl : px = some x0 := hx
    obtain rfl : py = none := hy
    rfl
  · intro x0 y0 hx hy hs
    obtain rfl : px = some x0 := hx
    obtain rfl : py = some y0 := hy
    obtain rfl : ps = none := hs
    rfl
  · intro hx
    obtain rfl : px = none := hx
    rfl
  · intro x0 hx hy
    obtain rfl : px = some x0 := hx
    obtain rfl : py = none := hy
    rfl
  · intro hx
    obtain rfl : px = none := hx
    rfl
  · intro x0 hx hy
    obtain rfl : px = some x0 := hx
    obtain rfl : py = none := hy
    rfl

theorem missing_key_propagates_witness :
    appB.board = some (mkBoard 8 8) ∧ emptyPayload.x = none ∧
    App.execute appB { name := "place_token", payload := emptyPayload } =
      (Except.error (PyErr.keyError "x"), appB) :=
  ⟨rfl, rfl, (missing_key_propagates appB (mkBoard 8 8) emptyPayload rfl).2.2.1 rfl⟩

/-- C10: at a coordinate with a negative component, place stores a token
that a subsequent get returns and that remove deletes, all without raising
(the grid enforces no lower bound on coordinates). -/
theorem negative_coords_tolerated (b : Board) (x y : Int) (s : String)
    (_hneg : x < 0 ∨ y < 0) (h : keysNodup b.positions) :
    (b.place_token x y s).get_token x y = some s ∧
    dictMem (b.place_token x y s).positions (x, y) = true ∧
    ((b.place_token x y s).remove_token x y).get_token x y = none ∧
    dictMem ((b.place_token x y s).remove_token x y).positions (x, y) = false := by
  have hp := keysNodup_place b x y s h
  refine ⟨get_place_self b x y s, ?_, get_remove_self _ x y hp, not_mem_after_remove _ x y hp⟩
  rw [Board.place_token_positions]
  exact dictMem_of_dictGet _ _ (Token.mk s) (dictGet_dictSet_self b.positions (x, y) (Token.mk s))

theorem negative_coords_tolerated_witness :
    ((-3 : Int) < 0 ∨ (2 : Int) < 0) ∧
    keysNodup (mkBoard 8 8).positions ∧
    (((mkBoard 8 8).place_token (-3) 2 "N").get_token (-3) 2 = some "N" ∧
     dictMem ((mkBoard 8 8).place_token (-3) 2 "N").positions (-3, 2) = true ∧
     (((mkBoard 8 8).place_token (-3) 2 "N").remove_token (-3) 2).get_token (-3) 2 = none ∧
     dictMem (((mkBoard 8 8).place_token (-3) 2 "N").remove_token (-3) 2).positions (-3, 2) = false) :=
  ⟨by decide, by decide,
   negative_coords_tolerated (mkBoard 8 8) (-3) 2 "N" (by decide) (by decide)⟩

end Main
